import Mathlib

/-!
Verification development for the electric-field-line tracer
(`src/lib.rs` of the `electric-fields-with-rust` crate).

The crate computes polylines approximating electric field lines of a set of
2-D point charges by discrete integration, using `f64` arithmetic.  We embed
the program shallowly:

* `f64` values are modelled by the type `F`: a finite real number, `+inf`,
  `-inf`, or `nan`, with IEEE-754-style arithmetic on these tags (rounding of
  finite values is idealized to exact real arithmetic; the claims under study
  are about structure and degeneracies, not rounding error).
* the `vecmath` crate's vector helpers (`vec2_add`, `vec2_scale`,
  `vec2_normalized`, ...) are modelled componentwise, following that crate's
  definitions (`vec2_normalized a = vec2_scale a (1 / sqrt (square_len a))`).
* `itertools`' `fold_while` is modelled by `foldWhileN`, a fold over a number
  of iterations with early exit via the `FoldWhile` tag.
* `usize` subtraction `n - 1` in loop bounds is modelled by `usizeSub1`,
  which wraps to `2^32 - 1` at `n = 0` (release-mode wrapping on the crate's
  wasm32 target, where `usize` is 32 bits; debug builds would panic there).
-/

noncomputable section

namespace ElectricFields

open Classical

/-- Model of `f64`: a finite real, an infinity, or NaN. -/
inductive F : Type
  | num : ℝ → F
  | pinf : F
  | ninf : F
  | nan : F

namespace F

/-- IEEE negation of an `f64`. -/
def neg : F → F
  | num x => num (-x)
  | pinf => ninf
  | ninf => pinf
  | nan => nan

/-- IEEE addition of two `f64` values: opposite infinities give NaN,
NaN propagates. -/
def add : F → F → F
  | num x, num y => num (x + y)
  | num _, pinf => pinf
  | pinf, num _ => pinf
  | pinf, pinf => pinf
  | num _, ninf => ninf
  | ninf, num _ => ninf
  | ninf, ninf => ninf
  | pinf, ninf => nan
  | ninf, pinf => nan
  | _, _ => nan

/-- IEEE subtraction: `a - b = a + (-b)`. -/
def sub (a b : F) : F := a.add b.neg

/-- IEEE multiplication: `0 * inf = NaN`, signs of infinities multiply,
NaN propagates. -/
def mul : F → F → F
  | num x, num y => num (x * y)
  | num x, pinf => if x = 0 then nan else if 0 < x then pinf else ninf
  | pinf, num x => if x = 0 then nan else if 0 < x then pinf else ninf
  | num x, ninf => if x = 0 then nan else if 0 < x then ninf else pinf
  | ninf, num x => if x = 0 then nan else if 0 < x then ninf else pinf
  | pinf, pinf => pinf
  | ninf, ninf => pinf
  | pinf, ninf => ninf
  | ninf, pinf => ninf
  | _, _ => nan

/-- IEEE division: `x / 0` is a signed infinity for `x ≠ 0` and NaN for
`x = 0`; finite over infinite is zero; `inf / inf = NaN`; NaN propagates.
(The sign of zero is not modelled; zero denominators behave as `+0`.) -/
def div : F → F → F
  | num x, num y =>
      if y = 0 then (if x = 0 then nan else if 0 < x then pinf else ninf)
      else num (x / y)
  | num _, pinf => num 0
  | num _, ninf => num 0
  | pinf, num y => if 0 ≤ y then pinf else ninf
  | ninf, num y => if 0 ≤ y then ninf else pinf
  | _, _ => nan

/-- IEEE square root: NaN on negative finite inputs and on `-inf`. -/
def sqrtF : F → F
  | num x => if x < 0 then nan else num (Real.sqrt x)
  | pinf => pinf
  | _ => nan

/-- Model of `f64::powf` with exponent `2.0`, which squares its input
(`powf(x, 2.0) = x * x` in every case, including infinities and NaN). -/
def powf2 (a : F) : F := a.mul a

/-- IEEE cosine: NaN on infinities and NaN. -/
def cosF : F → F
  | num x => num (Real.cos x)
  | _ => nan

/-- IEEE sine: NaN on infinities and NaN. -/
def sinF : F → F
  | num x => num (Real.sin x)
  | _ => nan

/-- IEEE `<` comparison as a proposition: any comparison involving NaN is
false, `-inf < num x < +inf`. -/
def lt : F → F → Prop
  | num x, num y => x < y
  | num _, pinf => True
  | ninf, num _ => True
  | ninf, pinf => True
  | _, _ => False

end F

open F

/-- Model of the `vecmath` crate's `Vector2<f64>` (the program's `Point`). -/
structure Vector2 where
  x : F
  y : F

/-- `Line` from the source: `type Line = Vec<Point>`. -/
abbrev Line := List Vector2

/-- `Point` from the source: `type Point = Vector2`. -/
abbrev Point := Vector2

/-- `Sign` enum from the source. -/
inductive Sign : Type
  | Positive
  | Negative

/-- `Position` struct from the source. -/
structure Position where
  x : F
  y : F

/-- `Charge` struct from the source. -/
structure Charge where
  id : ℕ
  sign : Sign
  magnitude : F
  position : Position
  r : F

/-- `Field` struct from the source (the spec's FieldSpec). -/
structure Field where
  source : Charge
  density : ℕ
  steps : ℕ
  delta : F
  lines : List Line

/-- `vecmath::vec2_add`: componentwise addition. -/
def vec2_add (a b : Vector2) : Vector2 := ⟨a.x.add b.x, a.y.add b.y⟩

/-- `vecmath::vec2_sub`: componentwise subtraction. -/
def vec2_sub (a b : Vector2) : Vector2 := ⟨a.x.sub b.x, a.y.sub b.y⟩

/-- `vecmath::vec2_neg`: componentwise negation. -/
def vec2_neg (a : Vector2) : Vector2 := ⟨a.x.neg, a.y.neg⟩

/-- `vecmath::vec2_scale`: scale both components by a scalar. -/
def vec2_scale (a : Vector2) (s : F) : Vector2 := ⟨a.x.mul s, a.y.mul s⟩

/-- `vecmath::vec2_square_len`: `a[0]*a[0] + a[1]*a[1]`. -/
def vec2_square_len (a : Vector2) : F := (a.x.mul a.x).add (a.y.mul a.y)

/-- `vecmath::vec2_len`: square root of the squared length. -/
def vec2_len (a : Vector2) : F := (vec2_square_len a).sqrtF

/-- `vecmath::vec2_inv_len`: `1 / len a` (an infinity when `len a = 0`). -/
def vec2_inv_len (a : Vector2) : F := (num 1).div (vec2_len a)

/-- `vecmath::vec2_normalized`: `vec2_scale a (vec2_inv_len a)`.  On the zero
vector this scales `0` by `+inf`, giving NaN components. -/
def vec2_normalized (a : Vector2) : Vector2 := vec2_scale a (vec2_inv_len a)

/-- `distance` from the source:
`((b[0]-a[0]).powf(2.0) + (b[1]-a[1]).powf(2.0)).sqrt()`. -/
def distance (a b : Vector2) : F :=
  (((b.x.sub a.x).powf2).add ((b.y.sub a.y).powf2)).sqrtF

/-- The charge's position as a `Vector2`
(the source's `[charge.position.x, charge.position.y]`). -/
def chargePos (charge : Charge) : Vector2 := ⟨charge.position.x, charge.position.y⟩

/-- The source's `let d = distance(previous_position, charge_position) / 100.0`
inside the field-evaluation fold of `calculate_field_line`. -/
def chargeD (previous_position : Vector2) (charge : Charge) : F :=
  (distance previous_position (chargePos charge)).div (num 100)

/-- The source's `let magnitude = charge.magnitude / d.powf(2.0)` inside the
field-evaluation fold of `calculate_field_line`.  There is no clamping of the
distance `d`: at zero distance this divides by zero. -/
def chargeMagnitude (previous_position : Vector2) (charge : Charge) : F :=
  charge.magnitude.div (chargeD previous_position charge).powf2

/-- The source's per-charge `let sign = match charge.sign { ... }`. -/
def signF : Sign → F
  | Sign.Positive => num 1
  | Sign.Negative => num (-1)

/-- The source's per-charge `let field = vec2_scale(vec2_normalized(
vec2_sub(previous_position, charge_position)), sign * magnitude)`. -/
def chargeField (previous_position : Vector2) (charge : Charge) : Vector2 :=
  vec2_scale
    (vec2_normalized (vec2_sub previous_position (chargePos charge)))
    ((signF charge.sign).mul (chargeMagnitude previous_position charge))

/-- The source's `let net_field = charges.iter().fold([0.0, 0.0], ...)`
inside `calculate_field_line`: superposition of all per-charge fields. -/
def netField (charges : List Charge) (previous_position : Vector2) : Vector2 :=
  charges.foldl (fun sum charge => vec2_add sum (chargeField previous_position charge))
    ⟨num 0, num 0⟩

/-- Model of `itertools::FoldWhile`. -/
inductive FoldWhile (α : Type) : Type
  | Continue : α → FoldWhile α
  | Done : α → FoldWhile α

/-- Model of `itertools`' `fold_while` over a range of `n` iterations
(the loop body of `calculate_field_line` ignores the range's items), followed
by `into_inner`: apply `f` repeatedly, stopping early on `Done`. -/
def foldWhileN {α : Type} (f : α → FoldWhile α) : ℕ → α → α
  | 0, acc => acc
  | n + 1, acc =>
    match f acc with
    | FoldWhile.Done result => result
    | FoldWhile.Continue result => foldWhileN f n result

/-- Release-mode `usize` subtraction `n - 1` as it appears in the loop bounds
`0..field.density - 1` and `0..steps - 1`: at `n = 0` the unsigned
subtraction wraps around to `2^32 - 1` (`usize` is 32 bits on the crate's
wasm32 target; a debug build would panic instead). -/
def usizeSub1 : ℕ → ℕ
  | 0 => 2 ^ 32 - 1
  | n + 1 => n

/-- The source's `let out_of_bounds = x > x_bound + tolerance || x < -tolerance
|| y > y_bound + tolerance || y < -tolerance` with `tolerance = 100.0`.
Note that IEEE comparisons involving NaN are all false, so a NaN coordinate
never registers as out of bounds. -/
def outOfBounds (current : Vector2) (x_bound y_bound : F) : Prop :=
  lt (x_bound.add (num 100)) current.x ∨ lt current.x (num 100).neg ∨
  lt (y_bound.add (num 100)) current.y ∨ lt current.y (num 100).neg

/-- The source's `let delta_vector = vec2_scale(vec2_normalized(net_field),
delta)` inside the loop body of `calculate_field_line`. -/
def deltaVector (charges : List Charge) (delta : F) (current : Vector2) : Vector2 :=
  vec2_scale (vec2_normalized (netField charges current)) delta

/-- The source's `let next = vec2_add(previous_position, match source_sign
{ Positive => delta_vector, Negative => vec2_neg(delta_vector) })` inside the
loop body of `calculate_field_line`. -/
def nextPoint (charges : List Charge) (delta : F) (source_sign : Sign)
    (current : Vector2) : Vector2 :=
  vec2_add current
    (match source_sign with
      | Sign.Positive => deltaVector charges delta current
      | Sign.Negative => vec2_neg (deltaVector charges delta current))

/-- The loop body of `calculate_field_line` (the closure passed to
`fold_while`).  `List.getLastD` mirrors `line[line.len()-1]` guarded by
`line.len() > 0` with unreachable fallback `[0.0, 0.0]`. -/
def traceBody (charges : List Charge) (delta : F) (source_sign : Sign)
    (x_bound y_bound : F) (line : Line) : FoldWhile Line :=
  let current := line.getLastD ⟨num 0, num 0⟩
  if outOfBounds current x_bound y_bound then
    FoldWhile.Done line
  else
    FoldWhile.Continue (line ++ [nextPoint charges delta source_sign current])

/-- `calculate_field_line` from the source: fold the loop body over
`0..steps - 1` starting from `vec![start]`. -/
def calculate_field_line (charges : List Charge) (steps : ℕ) (delta : F)
    (source_sign : Sign) (start : Point) (x_bound y_bound : F) : Line :=
  foldWhileN (traceBody charges delta source_sign x_bound y_bound)
    (usizeSub1 steps) [start]

/-- `calculate_fields` from the source (the core mapping; the serde/JsValue
boundary that deserializes the input and serializes the result is outside the
model).  For each field, seed points are taken at angles
`index * (2π / density)` for `index` in the half-open range
`0..density - 1`, and every line is traced against the sources of all
fields. -/
def calculate_fields (width height : F) (fields : List Field) : List Field :=
  fields.map (fun field =>
    let source_position : Vector2 := ⟨field.source.position.x, field.source.position.y⟩
    let delta_angle := ((num 2).mul (num Real.pi)).div (num (field.density : ℝ))
    let lines :=
      (List.range (usizeSub1 field.density)).map (fun (index : ℕ) =>
        let angle := delta_angle.mul (num (index : ℝ))
        let dx := field.source.r.mul angle.cosF
        let dy := field.source.r.mul angle.sinF
        let start := vec2_add ⟨dx, dy⟩ source_position
        calculate_field_line (fields.map (fun f => f.source)) field.steps
          field.delta field.source.sign start width height)
    { field with lines := lines })

/-- Modelled from the wording of claim C10: a point lies within the
tolerance-extended region `[-100, xb+100] × [-100, yb+100]` (in particular
its coordinates are finite numbers). -/
def withinToleranceRegion (p : Vector2) (xbr ybr : ℝ) : Prop :=
  ∃ rx ry : ℝ, p.x = num rx ∧ p.y = num ry ∧
    -100 ≤ rx ∧ rx ≤ xbr + 100 ∧ -100 ≤ ry ∧ ry ≤ ybr + 100

/-- The trace loop of `calculate_field_line` with an explicit iteration
count, for reasoning by induction; `calculate_field_line` is definitionally
`traceGo ... (usizeSub1 steps) [start]`. -/
def traceGo (charges : List Charge) (delta : F) (source_sign : Sign)
    (x_bound y_bound : F) (n : ℕ) (line : Line) : Line :=
  foldWhileN (traceBody charges delta source_sign x_bound y_bound) n line

/-- A positive unit charge at the origin (test input; its magnitude `1/10000`
makes the net field at distance 1 the unit vector, since the evaluator
rescales distances by `1/100` before squaring). -/
def chargeOrigin : Charge :=
  ⟨1, Sign.Positive, num (1 / 10000), ⟨num 0, num 0⟩, num 20⟩

/-- A like charge mirrored at `(2, 0)` (test input): together with
`chargeOrigin` the net field at the midpoint `(1, 0)` is the zero vector. -/
def chargeRight : Charge :=
  ⟨2, Sign.Positive, num (1 / 10000), ⟨num 2, num 0⟩, num 20⟩

/-- A zero-magnitude charge sitting exactly at the test seed `(1, 0)`
(test input for the superposition claim). -/
def chargeZeroAtSeed : Charge :=
  ⟨2, Sign.Positive, num 0, ⟨num 1, num 0⟩, num 20⟩

/-- A zero-magnitude charge away from the test trace (test input). -/
def chargeZeroFar : Charge :=
  ⟨2, Sign.Positive, num 0, ⟨num 50, num 50⟩, num 20⟩

/-- The source charge of the spec's §8 scenario: positive, magnitude 10,
at `(250, 250)`, seed-circle radius 20. -/
def scenarioCharge : Charge :=
  ⟨1, Sign.Positive, num 10, ⟨num 250, num 250⟩, num 20⟩

/-- The spec's §8 scenario field: `density 4, steps 5, delta 5`. -/
def scenarioField : Field := ⟨scenarioCharge, 4, 5, num 5, []⟩

/-- The §8 scenario field with `density = 0` (test input for the
invalid-configuration claim). -/
def zeroDensityField : Field := ⟨scenarioCharge, 0, 5, num 5, []⟩

/-! ### Structural lemmas about the trace loop -/

theorem getD_last {α : Type} (l : List α) (d : α) (hne : l ≠ []) :
    l.getD (l.length - 1) d = l.getLastD d := by
  rcases List.eq_nil_or_concat' l with rfl | ⟨l2, a, rfl⟩
  · exact absurd rfl hne
  · try simp only [List.concat_eq_append]
    rw [List.getLastD_concat, List.length_append]
    simp [List.getD_append_right]

theorem calculate_field_line_eq_traceGo (charges : List Charge) (steps : ℕ)
    (delta : F) (source_sign : Sign) (start : Point) (x_bound y_bound : F) :
    calculate_field_line charges steps delta source_sign start x_bound y_bound =
      traceGo charges delta source_sign x_bound y_bound (usizeSub1 steps) [start] := rfl

theorem traceGo_succ (charges : List Charge) (delta : F) (source_sign : Sign)
    (x_bound y_bound : F) (n : ℕ) (line : Line) :
    traceGo charges delta source_sign x_bound y_bound (n + 1) line =
      if outOfBounds (line.getLastD ⟨num 0, num 0⟩) x_bound y_bound then line
      else
        traceGo charges delta source_sign x_bound y_bound n
          (line ++ [nextPoint charges delta source_sign (line.getLastD ⟨num 0, num 0⟩)]) := by
  by_cases h : outOfBounds (line.getLastD ⟨num 0, num 0⟩) x_bound y_bound
  · simp only [traceGo, foldWhileN, traceBody, if_pos h]
  · simp only [traceGo, foldWhileN, traceBody, if_neg h]

theorem traceGo_length_ge (charges : List Charge) (delta : F) (source_sign : Sign)
    (x_bound y_bound : F) (n : ℕ) (line : Line) :
    line.length ≤ (traceGo charges delta source_sign x_bound y_bound n line).length := by
  induction n generalizing line with
  | zero => exact Nat.le_refl _
  | succ n ih =>
    rw [traceGo_succ]
    by_cases h : outOfBounds (line.getLastD ⟨num 0, num 0⟩) x_bound y_bound
    · rw [if_pos h]
    · rw [if_neg h]
      calc line.length
          ≤ (line ++ [nextPoint charges delta source_sign
              (line.getLastD ⟨num 0, num 0⟩)]).length := by simp
        _ ≤ _ := ih _

theorem traceGo_length_le (charges : List Charge) (delta : F) (source_sign : Sign)
    (x_bound y_bound : F) (n : ℕ) (line : Line) :
    (traceGo charges delta source_sign x_bound y_bound n line).length ≤ line.length + n := by
  induction n generalizing line with
  | zero => exact Nat.le_refl _
  | succ n ih =>
    rw [traceGo_succ]
    by_cases h : outOfBounds (line.getLastD ⟨num 0, num 0⟩) x_bound y_bound
    · rw [if_pos h]; omega
    · rw [if_neg h]
      have := ih (line ++ [nextPoint charges delta source_sign
        (line.getLastD ⟨num 0, num 0⟩)])
      simp only [List.length_append, List.length_singleton] at this
      omega

theorem traceGo_ne_nil (charges : List Charge) (delta : F) (source_sign : Sign)
    (x_bound y_bound : F) (n : ℕ) (line : Line) (hne : line ≠ []) :
    traceGo charges delta source_sign x_bound y_bound n line ≠ [] := by
  have h1 := traceGo_length_ge charges delta source_sign x_bound y_bound n line
  have h2 : 0 < line.length := List.length_pos.mpr hne
  intro hcon
  rw [hcon] at h1
  simp only [List.length_nil, Nat.le_zero] at h1
  omega

theorem traceGo_getD (charges : List Charge) (delta : F) (source_sign : Sign)
    (x_bound y_bound : F) (n : ℕ) (line : Line) (k : ℕ) (hk : k < line.length)
    (d : Vector2) :
    (traceGo charges delta source_sign x_bound y_bound n line).getD k d =
      line.getD k d := by
  induction n generalizing line with
  | zero => rfl
  | succ n ih =>
    rw [traceGo_succ]
    by_cases h : outOfBounds (line.getLastD ⟨num 0, num 0⟩) x_bound y_bound
    · rw [if_pos h]
    · rw [if_neg h]
      rw [ih (line ++ [nextPoint charges delta source_sign
        (line.getLastD ⟨num 0, num 0⟩)]) (by simp; omega)]
      exact List.getD_append _ _ _ _ hk

theorem traceGo_mem (charges : List Charge) (delta : F) (source_sign : Sign)
    (x_bound y_bound : F) (n : ℕ) (line : Line) (p : Vector2) (hp : p ∈ line) :
    p ∈ traceGo charges delta source_sign x_bound y_bound n line := by
  induction n generalizing line with
  | zero => exact hp
  | succ n ih =>
    rw [traceGo_succ]
    by_cases h : outOfBounds (line.getLastD ⟨num 0, num 0⟩) x_bound y_bound
    · rw [if_pos h]; exact hp
    · rw [if_neg h]
      exact ih _ (List.mem_append_left _ hp)

theorem traceGo_dropLast (charges : List Charge) (delta : F) (source_sign : Sign)
    (x_bound y_bound : F) (n : ℕ) (line : Line)
    (h : ∀ p ∈ line.dropLast, ¬ outOfBounds p x_bound y_bound) :
    ∀ p ∈ (traceGo charges delta source_sign x_bound y_bound n line).dropLast,
      ¬ outOfBounds p x_bound y_bound := by
  induction n generalizing line with
  | zero => exact h
  | succ n ih =>
    rw [traceGo_succ]
    by_cases hc : outOfBounds (line.getLastD ⟨num 0, num 0⟩) x_bound y_bound
    · rw [if_pos hc]; exact h
    · rw [if_neg hc]
      apply ih
      intro p hp
      rw [List.dropLast_concat] at hp
      rcases List.eq_nil_or_concat' line with rfl | ⟨l2, a, rfl⟩
      · simp at hp
      · try simp only [List.concat_eq_append] at hp hc h ⊢
        rw [List.getLastD_concat] at hc
        rcases List.mem_append.mp hp with hp2 | hp2
        · exact h p (by rw [List.dropLast_concat]; exact hp2)
        · rw [List.mem_singleton.mp hp2]
          exact hc

theorem traceGo_length_iff (charges : List Charge) (delta : F) (source_sign : Sign)
    (x_bound y_bound : F) (n : ℕ) (line : Line) (hne : line ≠ []) :
    (traceGo charges delta source_sign x_bound y_bound n line).length =
        line.length + n ↔
      ∀ k, line.length - 1 ≤ k → k < line.length - 1 + n →
        k < (traceGo charges delta source_sign x_bound y_bound n line).length ∧
        ¬ outOfBounds
          ((traceGo charges delta source_sign x_bound y_bound n line).getD k
            ⟨num 0, num 0⟩) x_bound y_bound := by
  induction n generalizing line with
  | zero =>
    constructor
    · intro _ k h1 h2
      exact absurd h2 (by omega)
    · intro _
      rfl
  | succ n ih =>
    have hpos : 0 < line.length := List.length_pos.mpr hne
    rw [traceGo_succ]
    by_cases hc : outOfBounds (line.getLastD ⟨num 0, num 0⟩) x_bound y_bound
    · rw [if_pos hc]
      constructor
      · intro habs
        exact absurd habs (by omega)
      · intro hR
        exfalso
        obtain ⟨_, hout⟩ := hR (line.length - 1) (Nat.le_refl _) (by omega)
        rw [getD_last line _ hne] at hout
        exact hout hc
    · rw [if_neg hc]
      set nx := nextPoint charges delta source_sign (line.getLastD ⟨num 0, num 0⟩) with hnx
      have hne2 : line ++ [nx] ≠ [] := by simp
      have hlen2 : (line ++ [nx]).length = line.length + 1 := by simp
      have hstep : line.length + (n + 1) = (line ++ [nx]).length + n := by
        rw [hlen2]; omega
      rw [hstep, ih (line ++ [nx]) hne2]
      constructor
      · intro hI k h1 h2
        by_cases hk : line.length ≤ k
        · exact hI k (by omega) (by omega)
        · have hkeq : k = line.length - 1 := by omega
          subst hkeq
          constructor
          · have := traceGo_length_ge charges delta source_sign x_bound y_bound n
              (line ++ [nx])
            omega
          · rw [traceGo_getD charges delta source_sign x_bound y_bound n
              (line ++ [nx]) _ (by omega) _]
            rw [List.getD_append _ _ _ _ (by omega)]
            rw [getD_last line _ hne]
            exact hc
      · intro hT k h1 h2
        exact hT k (by omega) (by omega)


/-! ### Evaluation lemmas for the `F` arithmetic -/

theorem add_nan (a : F) : a.add F.nan = F.nan := by cases a <;> rfl

theorem nan_add (a : F) : F.nan.add a = F.nan := by cases a <;> rfl

theorem mul_nan (a : F) : a.mul F.nan = F.nan := by cases a <;> rfl

theorem nan_mul (a : F) : F.nan.mul a = F.nan := by cases a <;> rfl

theorem add_num_zero (a : F) : a.add (num 0) = a := by
  cases a <;> simp [F.add]

theorem getLastD_single (p d : Vector2) : List.getLastD [p] d = p := by simp

theorem getLastD_mem {α : Type} (l : List α) (d : α) (hne : l ≠ []) :
    l.getLastD d ∈ l := by
  rcases List.eq_nil_or_concat' l with rfl | ⟨l2, a, rfl⟩
  · exact absurd rfl hne
  · try simp only [List.concat_eq_append]
    rw [List.getLastD_concat]
    exact List.mem_append_right _ (List.mem_singleton.mpr rfl)

/-! ### Concrete evaluations of the field arithmetic -/

theorem distance_num (ax ay bx by2 : ℝ) :
    distance ⟨num ax, num ay⟩ ⟨num bx, num by2⟩ =
      num (Real.sqrt ((bx - ax) ^ 2 + (by2 - ay) ^ 2)) := by
  simp only [distance, F.sub, F.neg, F.add, F.powf2, F.mul, F.sqrtF]
  rw [if_neg (not_lt.mpr (add_nonneg (mul_self_nonneg _) (mul_self_nonneg _)))]
  congr 1
  ring_nf

theorem normalized_zero_eval : vec2_normalized ⟨num 0, num 0⟩ = ⟨F.nan, F.nan⟩ := by
  norm_num [vec2_normalized, vec2_inv_len, vec2_len, vec2_square_len, vec2_scale,
    F.mul, F.add, F.sqrtF, F.div, Real.sqrt_zero]

theorem normalized_nan_eval : vec2_normalized ⟨F.nan, F.nan⟩ = ⟨F.nan, F.nan⟩ := by
  simp [vec2_normalized, vec2_inv_len, vec2_len, vec2_square_len, vec2_scale,
    F.mul, F.add, F.sqrtF, F.div]

theorem normalized_unit_x_eval : vec2_normalized ⟨num 1, num 0⟩ = ⟨num 1, num 0⟩ := by
  norm_num [vec2_normalized, vec2_inv_len, vec2_len, vec2_square_len, vec2_scale,
    F.mul, F.add, F.sqrtF, F.div, Real.sqrt_one]

theorem chargeField_origin_at_seed :
    chargeField ⟨num 1, num 0⟩ chargeOrigin = ⟨num 1, num 0⟩ := by
  simp only [chargeField, chargeMagnitude, chargeD, chargePos, chargeOrigin, signF,
    vec2_sub, vec2_scale, vec2_normalized, vec2_inv_len, vec2_len, vec2_square_len,
    distance_num, F.sub, F.neg, F.add, F.mul, F.powf2]
  norm_num [F.sqrtF, F.div, F.mul]

theorem chargeField_right_at_seed :
    chargeField ⟨num 1, num 0⟩ chargeRight = ⟨num (-1), num 0⟩ := by
  simp only [chargeField, chargeMagnitude, chargeD, chargePos, chargeRight, signF,
    vec2_sub, vec2_scale, vec2_normalized, vec2_inv_len, vec2_len, vec2_square_len,
    distance_num, F.sub, F.neg, F.add, F.mul, F.powf2]
  norm_num [F.sqrtF, F.div, F.mul]

theorem chargeField_zeroAtSeed_eval :
    chargeField ⟨num 1, num 0⟩ chargeZeroAtSeed = ⟨F.nan, F.nan⟩ := by
  simp only [chargeField, chargeMagnitude, chargeD, chargePos, chargeZeroAtSeed, signF,
    vec2_sub, vec2_scale, vec2_normalized, vec2_inv_len, vec2_len, vec2_square_len,
    distance_num, F.sub, F.neg, F.add, F.mul, F.powf2]
  norm_num [F.sqrtF, F.div, F.mul, Real.sqrt_zero]

theorem netField_two_eval :
    netField [chargeOrigin, chargeRight] ⟨num 1, num 0⟩ = ⟨num 0, num 0⟩ := by
  simp only [netField, List.foldl_cons, List.foldl_nil,
    chargeField_origin_at_seed, chargeField_right_at_seed, vec2_add]
  norm_num [F.add]

theorem netField_one_eval :
    netField [chargeOrigin] ⟨num 1, num 0⟩ = ⟨num 1, num 0⟩ := by
  simp only [netField, List.foldl_cons, List.foldl_nil,
    chargeField_origin_at_seed, vec2_add]
  norm_num [F.add]

theorem netField_AB_eval :
    netField [chargeOrigin, chargeZeroAtSeed] ⟨num 1, num 0⟩ = ⟨F.nan, F.nan⟩ := by
  simp only [netField, List.foldl_cons, List.foldl_nil,
    chargeField_origin_at_seed, chargeField_zeroAtSeed_eval, vec2_add]
  simp [F.add, add_nan]

theorem nextPoint_two_eval :
    nextPoint [chargeOrigin, chargeRight] (num 5) Sign.Positive ⟨num 1, num 0⟩ =
      ⟨F.nan, F.nan⟩ := by
  simp only [nextPoint, deltaVector, netField_two_eval, normalized_zero_eval,
    vec2_scale, vec2_add]
  simp [F.mul, F.add, nan_mul, add_nan]

theorem nextPoint_one_eval :
    nextPoint [chargeOrigin] (num 5) Sign.Positive ⟨num 1, num 0⟩ = ⟨num 6, num 0⟩ := by
  simp only [nextPoint, deltaVector, netField_one_eval, normalized_unit_x_eval,
    vec2_scale, vec2_add]
  norm_num [F.mul, F.add]

theorem nextPoint_AB_eval :
    nextPoint [chargeOrigin, chargeZeroAtSeed] (num 5) Sign.Positive ⟨num 1, num 0⟩ =
      ⟨F.nan, F.nan⟩ := by
  simp only [nextPoint, deltaVector, netField_AB_eval, normalized_nan_eval,
    vec2_scale, vec2_add]
  simp [F.mul, F.add, nan_mul, add_nan]

theorem nextPoint_nil_eval (p : Vector2) :
    nextPoint [] (num 5) Sign.Positive p = vec2_add p ⟨F.nan, F.nan⟩ := by
  simp only [nextPoint, deltaVector, netField, List.foldl_nil, normalized_zero_eval,
    vec2_scale]
  simp [F.mul, nan_mul]

theorem not_out_seed : ¬ outOfBounds ⟨num 1, num 0⟩ (num 500) (num 500) := by
  simp only [outOfBounds, F.lt, F.add, F.neg]
  norm_num

theorem not_out_origin_100 : ¬ outOfBounds ⟨num 0, num 0⟩ (num 100) (num 100) := by
  simp only [outOfBounds, F.lt, F.add, F.neg]
  norm_num

theorem not_out_nan (xb yb : ℝ) : ¬ outOfBounds ⟨F.nan, F.nan⟩ (num xb) (num yb) := by
  simp [outOfBounds, F.lt, F.add, F.neg]

theorem out_far : outOfBounds ⟨num 1000, num 0⟩ (num 500) (num 500) := by
  simp only [outOfBounds, F.lt, F.add, F.neg]
  norm_num

/-! ### Concrete trace evaluations -/

theorem trace_one_charge_eval :
    calculate_field_line [chargeOrigin] 2 (num 5) Sign.Positive
      ⟨num 1, num 0⟩ (num 500) (num 500) =
      [⟨num 1, num 0⟩, ⟨num 6, num 0⟩] := by
  have h2 : usizeSub1 2 = 0 + 1 := rfl
  rw [calculate_field_line_eq_traceGo, h2, traceGo_succ]
  rw [getLastD_single]
  rw [if_neg not_out_seed]
  rw [nextPoint_one_eval]
  rfl

theorem trace_AB_eval :
    calculate_field_line [chargeOrigin, chargeZeroAtSeed] 2 (num 5) Sign.Positive
      ⟨num 1, num 0⟩ (num 500) (num 500) =
      [⟨num 1, num 0⟩, ⟨F.nan, F.nan⟩] := by
  have h2 : usizeSub1 2 = 0 + 1 := rfl
  rw [calculate_field_line_eq_traceGo, h2, traceGo_succ]
  rw [getLastD_single]
  rw [if_neg not_out_seed]
  rw [nextPoint_AB_eval]
  rfl

theorem trace_empty_three_eval :
    calculate_field_line [] 3 (num 5) Sign.Positive ⟨num 0, num 0⟩
      (num 100) (num 100) =
      [⟨num 0, num 0⟩, ⟨F.nan, F.nan⟩, ⟨F.nan, F.nan⟩] := by
  have h2 : usizeSub1 3 = (0 + 1) + 1 := rfl
  rw [calculate_field_line_eq_traceGo, h2, traceGo_succ]
  rw [getLastD_single]
  rw [if_neg not_out_origin_100]
  rw [nextPoint_nil_eval]
  have hstep : vec2_add ⟨num 0, num 0⟩ ⟨F.nan, F.nan⟩ = ⟨F.nan, F.nan⟩ := by
    simp [vec2_add, add_nan]
  rw [hstep, traceGo_succ, List.getLastD_concat]
  rw [if_neg (not_out_nan 100 100)]
  rw [nextPoint_nil_eval]
  have hstep2 : vec2_add ⟨F.nan, F.nan⟩ ⟨F.nan, F.nan⟩ = ⟨F.nan, F.nan⟩ := by
    simp [vec2_add, add_nan]
  rw [hstep2]
  rfl

theorem trace_empty_two_eval :
    calculate_field_line [] 2 (num 5) Sign.Positive ⟨num 0, num 0⟩
      (num 100) (num 100) =
      [⟨num 0, num 0⟩, ⟨F.nan, F.nan⟩] := by
  have h2 : usizeSub1 2 = 0 + 1 := rfl
  rw [calculate_field_line_eq_traceGo, h2, traceGo_succ]
  rw [getLastD_single]
  rw [if_neg not_out_origin_100]
  rw [nextPoint_nil_eval]
  have hstep : vec2_add ⟨num 0, num 0⟩ ⟨F.nan, F.nan⟩ = ⟨F.nan, F.nan⟩ := by
    simp [vec2_add, add_nan]
  rw [hstep]
  rfl

theorem trace_far_seed_eval :
    calculate_field_line [chargeOrigin] 2 (num 5) Sign.Positive
      ⟨num 1000, num 0⟩ (num 500) (num 500) = [⟨num 1000, num 0⟩] := by
  have h2 : usizeSub1 2 = 0 + 1 := rfl
  rw [calculate_field_line_eq_traceGo, h2, traceGo_succ]
  rw [getLastD_single]
  rw [if_pos out_far]

/-! ### Zero-magnitude charges are field-neutral away from their position -/

theorem vec2_add_num_zero (v : Vector2) : vec2_add v ⟨num 0, num 0⟩ = v := by
  cases v
  simp [vec2_add, add_num_zero]

theorem netField_pair (A B : Charge) (p : Vector2) :
    netField [A, B] p = vec2_add (netField [A] p) (chargeField p B) := by
  simp [netField, List.foldl_cons, List.foldl_nil]

theorem vec2_normalized_num (ax ay : ℝ) (h : ax * ax + ay * ay ≠ 0) :
    vec2_normalized ⟨num ax, num ay⟩ =
      ⟨num (ax * (1 / Real.sqrt (ax * ax + ay * ay))),
       num (ay * (1 / Real.sqrt (ax * ax + ay * ay)))⟩ := by
  have hnn : 0 ≤ ax * ax + ay * ay := add_nonneg (mul_self_nonneg _) (mul_self_nonneg _)
  have hnn2 : ¬ (ax * ax + ay * ay < 0) := not_lt.mpr hnn
  have hpos : 0 < ax * ax + ay * ay := lt_of_le_of_ne hnn (Ne.symm h)
  have hsq : Real.sqrt (ax * ax + ay * ay) ≠ 0 :=
    ne_of_gt (Real.sqrt_pos.mpr hpos)
  have hone : (1:ℝ) ≠ 0 := one_ne_zero
  simp [vec2_normalized, vec2_inv_len, vec2_len, vec2_square_len, vec2_scale,
    F.mul, F.add, F.sqrtF, F.div, hnn2, hsq, hone]

theorem chargeField_zero_mag (B : Charge) (bx by2 px py : ℝ)
    (hmag : B.magnitude = num 0) (hpos : B.position = ⟨num bx, num by2⟩)
    (hne : px ≠ bx ∨ py ≠ by2) :
    chargeField ⟨num px, num py⟩ B = ⟨num 0, num 0⟩ := by
  have hs : 0 < (bx - px) ^ 2 + (by2 - py) ^ 2 := by
    rcases hne with h | h
    · have h2 : bx - px ≠ 0 := sub_ne_zero.mpr (Ne.symm h)
      have h3 : 0 < (bx - px) ^ 2 := by positivity
      nlinarith [sq_nonneg (by2 - py)]
    · have h2 : by2 - py ≠ 0 := sub_ne_zero.mpr (Ne.symm h)
      have h3 : 0 < (by2 - py) ^ 2 := by positivity
      nlinarith [sq_nonneg (bx - px)]
  have hsqrt : Real.sqrt ((bx - px) ^ 2 + (by2 - py) ^ 2) ≠ 0 :=
    ne_of_gt (Real.sqrt_pos.mpr hs)
  have hdd : Real.sqrt ((bx - px) ^ 2 + (by2 - py) ^ 2) / 100 *
      (Real.sqrt ((bx - px) ^ 2 + (by2 - py) ^ 2) / 100) ≠ 0 :=
    mul_ne_zero (div_ne_zero hsqrt (by norm_num)) (div_ne_zero hsqrt (by norm_num))
  have hmagF : chargeMagnitude ⟨num px, num py⟩ B = num 0 := by
    simp [chargeMagnitude, chargeD, chargePos, hpos, hmag, distance_num,
      F.powf2, F.mul, F.div, hdd, (by norm_num : ¬ (100:ℝ) = 0)]
  have hsl : (px + -bx) * (px + -bx) + (py + -by2) * (py + -by2) ≠ 0 := by
    intro hc
    apply ne_of_gt hs
    nlinarith [hc]
  have hsub : vec2_sub ⟨num px, num py⟩ (chargePos B) =
      ⟨num (px + -bx), num (py + -by2)⟩ := by
    simp [vec2_sub, chargePos, hpos, F.sub, F.neg, F.add]
  rw [chargeField, hmagF, hsub, vec2_normalized_num _ _ hsl]
  cases hSign : B.sign <;>
    simp [signF, vec2_scale, F.mul]

theorem netField_pair_zero_mag (A B : Charge) (bx by2 px py : ℝ)
    (hmag : B.magnitude = num 0) (hpos : B.position = ⟨num bx, num by2⟩)
    (hne : px ≠ bx ∨ py ≠ by2) :
    netField [A, B] ⟨num px, num py⟩ = netField [A] ⟨num px, num py⟩ := by
  rw [netField_pair, chargeField_zero_mag B bx by2 px py hmag hpos hne,
    vec2_add_num_zero]

theorem traceGo_pair_eq (A B : Charge) (delta : F) (source_sign : Sign)
    (x_bound y_bound : F) (bx by2 : ℝ)
    (hmag : B.magnitude = num 0) (hpos : B.position = ⟨num bx, num by2⟩)
    (n : ℕ) (line : Line) (hne : line ≠ [])
    (hpts : ∀ p ∈ traceGo [A] delta source_sign x_bound y_bound n line,
      ∃ px py : ℝ, p = ⟨num px, num py⟩ ∧ (px ≠ bx ∨ py ≠ by2)) :
    traceGo [A, B] delta source_sign x_bound y_bound n line =
      traceGo [A] delta source_sign x_bound y_bound n line := by
  induction n generalizing line with
  | zero => rfl
  | succ n ih =>
    have hcur : line.getLastD ⟨num 0, num 0⟩ ∈ line :=
      getLastD_mem line _ hne
    have hcur2 : line.getLastD ⟨num 0, num 0⟩ ∈
        traceGo [A] delta source_sign x_bound y_bound (n + 1) line :=
      traceGo_mem _ _ _ _ _ _ _ _ hcur
    obtain ⟨px, py, hp, hnexy⟩ := hpts _ hcur2
    rw [traceGo_succ, traceGo_succ]
    by_cases hc : outOfBounds (line.getLastD ⟨num 0, num 0⟩) x_bound y_bound
    · rw [if_pos hc, if_pos hc]
    · rw [if_neg hc, if_neg hc]
      have hnf : netField [A, B] (line.getLastD ⟨num 0, num 0⟩) =
          netField [A] (line.getLastD ⟨num 0, num 0⟩) := by
        rw [hp]
        exact netField_pair_zero_mag A B bx by2 px py hmag hpos hnexy
      have hnext : nextPoint [A, B] delta source_sign
            (line.getLastD ⟨num 0, num 0⟩) =
          nextPoint [A] delta source_sign (line.getLastD ⟨num 0, num 0⟩) := by
        simp only [nextPoint, deltaVector, hnf]
      rw [hnext]
      apply ih _ (by simp)
      intro p hp2
      apply hpts
      rw [traceGo_succ, if_neg hc]
      exact hp2

/-! ### The claims -/

/-- Claim C1 (refuted by the code): the claim says `calculate_fields` emits
exactly `density` seed lines per source, with 4 seed points at 0°, 90°, 180°,
270° for the density-4 scenario.  The code's seed loop `0..field.density - 1`
is an exclusive Rust range, so the density-4 scenario field gets only
`density - 1 = 3` lines (angles 0°, 90°, 180°; the 270° line is missing). -/
theorem c1_density_four_emits_three_lines :
    (calculate_fields (num 500) (num 500) [scenarioField]).map
      (fun f => f.lines.length) = [3] := by
  simp only [calculate_fields, List.map_cons, List.map_nil, List.length_map,
    List.length_range, usizeSub1, scenarioField]

/-- Claim C2 (refuted by the code): the claim says the tracer applies a
defined fallback at a zero-net-field step and never appends a NaN position.
In fact the tracer normalizes the zero vector unconditionally: from the seed
`(1,0)` midway between the two equal positive charges at `(0,0)` and `(2,0)`,
the net field is the zero vector, and the returned Line's second point is
`(NaN, NaN)`. -/
theorem c2_zero_field_appends_nan :
    calculate_field_line [chargeOrigin, chargeRight] 2 (num 5) Sign.Positive
      ⟨num 1, num 0⟩ (num 500) (num 500) =
      [⟨num 1, num 0⟩, ⟨F.nan, F.nan⟩] := by
  have h2 : usizeSub1 2 = 0 + 1 := rfl
  rw [calculate_field_line_eq_traceGo, h2, traceGo_succ]
  rw [getLastD_single]
  rw [if_neg not_out_seed]
  rw [nextPoint_two_eval]
  rfl

/-- Claim C3 (refuted by the code): the claim says the evaluator clamps a
zero inter-point distance to a nonzero epsilon so the per-charge magnitude is
never infinite or NaN.  The code has no clamp: evaluating the scenario charge
(magnitude 10, at `(250, 250)`) at its own position divides by zero and gives
`+inf`. -/
theorem c3_zero_distance_magnitude_infinite :
    chargeMagnitude ⟨num 250, num 250⟩ scenarioCharge = F.pinf := by
  simp [chargeMagnitude, chargeD, chargePos, scenarioCharge, distance_num,
    F.powf2, F.mul, F.div, Real.sqrt_zero]

/-- Claim C4 (refuted by the code): the claim says `density = 0` or
`steps = 0` is rejected or clamped to 1 before the loops.  The code does
neither: the seed-loop bound `0..density - 1` wraps the unsigned subtraction,
emitting `2^32 - 1` lines for a density-0 field (release-mode `usize`
wrapping on the crate's 32-bit wasm target; a debug build panics at the
subtraction), and `calculate_field_line` applies the same wrapping
subtraction `usizeSub1` to `steps`. -/
theorem c4_density_zero_wraps_loop_bound :
    (calculate_fields (num 500) (num 500) [zeroDensityField]).map
        (fun f => f.lines.length) = [2 ^ 32 - 1] ∧
      usizeSub1 0 = 2 ^ 32 - 1 := by
  constructor
  · simp only [calculate_fields, List.map_cons, List.map_nil, List.length_map,
      List.length_range, usizeSub1, zeroDensityField]
  · rfl

/-- Claim C5 (confirmed): for every call with `steps ≥ 1`, the returned Line
has length between 1 and `steps`, and its length equals `steps` exactly when
no bounds-exit occurred before the budget of `steps - 1` iterations was
exhausted — that is, exactly when each of the first `steps - 1` points exists
and passes the bounds check. -/
theorem c5_line_length_bounds (charges : List Charge) (steps : ℕ) (delta : F)
    (source_sign : Sign) (start : Point) (x_bound y_bound : F)
    (hsteps : 1 ≤ steps) :
    1 ≤ (calculate_field_line charges steps delta source_sign start
        x_bound y_bound).length ∧
    (calculate_field_line charges steps delta source_sign start
        x_bound y_bound).length ≤ steps ∧
    ((calculate_field_line charges steps delta source_sign start
          x_bound y_bound).length = steps ↔
      ∀ k, k < steps - 1 →
        k < (calculate_field_line charges steps delta source_sign start
            x_bound y_bound).length ∧
        ¬ outOfBounds
          ((calculate_field_line charges steps delta source_sign start
              x_bound y_bound).getD k ⟨num 0, num 0⟩) x_bound y_bound) := by
  rw [calculate_field_line_eq_traceGo]
  have hn : usizeSub1 steps = steps - 1 := by
    cases steps with
    | zero => omega
    | succ m => rfl
  rw [hn]
  refine ⟨?_, ?_, ?_⟩
  · have := traceGo_length_ge charges delta source_sign x_bound y_bound
      (steps - 1) [start]
    simpa using this
  · have := traceGo_length_le charges delta source_sign x_bound y_bound
      (steps - 1) [start]
    simp only [List.length_singleton] at this
    omega
  · have hiff := traceGo_length_iff charges delta source_sign x_bound y_bound
      (steps - 1) [start] (by simp)
    simp only [List.length_singleton, Nat.sub_self, Nat.zero_add, Nat.zero_le,
      true_implies] at hiff
    have h1 : 1 + (steps - 1) = steps := by omega
    rw [h1] at hiff
    exact hiff

/-- Witness for claim C5 at a concrete input: a `steps = 1` trace over no
charges from the origin. -/
theorem c5_line_length_bounds_witness :
    1 ≤ (calculate_field_line [] 1 (num 5) Sign.Positive ⟨num 0, num 0⟩
        (num 100) (num 100)).length ∧
    (calculate_field_line [] 1 (num 5) Sign.Positive ⟨num 0, num 0⟩
        (num 100) (num 100)).length ≤ 1 ∧
    ((calculate_field_line [] 1 (num 5) Sign.Positive ⟨num 0, num 0⟩
          (num 100) (num 100)).length = 1 ↔
      ∀ k, k < 1 - 1 →
        k < (calculate_field_line [] 1 (num 5) Sign.Positive ⟨num 0, num 0⟩
            (num 100) (num 100)).length ∧
        ¬ outOfBounds
          ((calculate_field_line [] 1 (num 5) Sign.Positive ⟨num 0, num 0⟩
              (num 100) (num 100)).getD k ⟨num 0, num 0⟩) (num 100) (num 100)) :=
  c5_line_length_bounds [] 1 (num 5) Sign.Positive ⟨num 0, num 0⟩
    (num 100) (num 100) (Nat.le_refl 1)

/-- Claim C6 (confirmed): a seed point that satisfies the out-of-bounds
predicate (more than the 100-unit tolerance outside `[0, width] × [0,
height]`) yields a Line of length exactly 1 — just the seed — whenever
`steps ≥ 2`, so that the bounds check is actually reached. -/
theorem c6_far_seed_returns_singleton (charges : List Charge) (steps : ℕ)
    (delta : F) (source_sign : Sign) (start : Point) (x_bound y_bound : F)
    (hsteps : 2 ≤ steps) (hout : outOfBounds start x_bound y_bound) :
    calculate_field_line charges steps delta source_sign start x_bound y_bound =
      [start] := by
  rw [calculate_field_line_eq_traceGo]
  obtain ⟨m, hm⟩ : ∃ m, usizeSub1 steps = m + 1 := by
    cases steps with
    | zero => omega
    | succ k =>
      cases k with
      | zero => omega
      | succ j => exact ⟨j, rfl⟩
  rw [hm, traceGo_succ, getLastD_single, if_pos hout]

/-- Witness for claim C6 at a concrete input: seed `(1000, 0)` against
bounds 500 × 500 with `steps = 2`. -/
theorem c6_far_seed_returns_singleton_witness :
    calculate_field_line [chargeOrigin] 2 (num 5) Sign.Positive
      ⟨num 1000, num 0⟩ (num 500) (num 500) = [⟨num 1000, num 0⟩] :=
  c6_far_seed_returns_singleton [chargeOrigin] 2 (num 5) Sign.Positive
    ⟨num 1000, num 0⟩ (num 500) (num 500) (Nat.le_refl 2) out_far

/-- Claim C7 (confirmed): at every in-bounds trace step the loop body
appends `current + delta·unit(netField)` when the source sign is `Positive`,
and `current - delta·unit(netField)` (the step vector negated before being
added) when the source sign is `Negative`. -/
theorem c7_sign_selects_step_direction (charges : List Charge) (delta : F)
    (source_sign : Sign) (x_bound y_bound : F) (line : Line)
    (hin : ¬ outOfBounds (line.getLastD ⟨num 0, num 0⟩) x_bound y_bound) :
    traceBody charges delta source_sign x_bound y_bound line =
      FoldWhile.Continue (line ++
        [match source_sign with
          | Sign.Positive =>
              vec2_add (line.getLastD ⟨num 0, num 0⟩)
                (deltaVector charges delta (line.getLastD ⟨num 0, num 0⟩))
          | Sign.Negative =>
              vec2_sub (line.getLastD ⟨num 0, num 0⟩)
                (deltaVector charges delta (line.getLastD ⟨num 0, num 0⟩))]) := by
  simp only [traceBody, if_neg hin, nextPoint]
  cases source_sign
  · rfl
  · rfl

/-- Witness for claim C7 at a concrete in-bounds input, for both signs. -/
theorem c7_sign_selects_step_direction_witness :
    (traceBody [] (num 5) Sign.Positive (num 100) (num 100) [⟨num 0, num 0⟩] =
      FoldWhile.Continue ([⟨num 0, num 0⟩] ++
        [vec2_add (List.getLastD [⟨num 0, num 0⟩] ⟨num 0, num 0⟩)
          (deltaVector [] (num 5)
            (List.getLastD [⟨num 0, num 0⟩] ⟨num 0, num 0⟩))])) ∧
    (traceBody [] (num 5) Sign.Negative (num 100) (num 100) [⟨num 0, num 0⟩] =
      FoldWhile.Continue ([⟨num 0, num 0⟩] ++
        [vec2_sub (List.getLastD [⟨num 0, num 0⟩] ⟨num 0, num 0⟩)
          (deltaVector [] (num 5)
            (List.getLastD [⟨num 0, num 0⟩] ⟨num 0, num 0⟩))])) :=
  ⟨c7_sign_selects_step_direction [] (num 5) Sign.Positive (num 100) (num 100)
      [⟨num 0, num 0⟩] (by rw [getLastD_single]; exact not_out_origin_100),
   c7_sign_selects_step_direction [] (num 5) Sign.Negative (num 100) (num 100)
      [⟨num 0, num 0⟩] (by rw [getLastD_single]; exact not_out_origin_100)⟩

/-- Claim C8, amended: a zero-magnitude charge `B` is field-neutral — the
trace over `{A, B}` equals the trace over `{A}` — provided `B`'s position is
finite and no point of the `{A}`-trace coincides with `B`'s position (and in
particular all its points are finite).  The unrestricted claim is refuted by
the counterexample theorem: when the trace passes exactly through `B`'s
position, `B` contributes `0/0 = NaN`, not the zero vector. -/
theorem c8_zero_magnitude_neutral (A B : Charge) (steps : ℕ) (delta : F)
    (source_sign : Sign) (start : Point) (x_bound y_bound : F) (bx by2 : ℝ)
    (hmag : B.magnitude = num 0) (hpos : B.position = ⟨num bx, num by2⟩)
    (hpts : ∀ p ∈ calculate_field_line [A] steps delta source_sign start
        x_bound y_bound,
      ∃ px py : ℝ, p = ⟨num px, num py⟩ ∧ (px ≠ bx ∨ py ≠ by2)) :
    calculate_field_line [A, B] steps delta source_sign start x_bound y_bound =
      calculate_field_line [A] steps delta source_sign start x_bound y_bound := by
  rw [calculate_field_line_eq_traceGo] at hpts ⊢
  rw [calculate_field_line_eq_traceGo]
  exact traceGo_pair_eq A B delta source_sign x_bound y_bound bx by2 hmag hpos
    (usizeSub1 steps) [start] (by simp) hpts

/-- Counterexample to claim C8 as stated: with the zero-magnitude charge
`chargeZeroAtSeed` placed exactly at the seed `(1, 0)`, the trace over
`{chargeOrigin, chargeZeroAtSeed}` differs from the trace over
`{chargeOrigin}` (the former's second point is `(NaN, NaN)`, the latter's is
`(6, 0)`). -/
theorem c8_zero_magnitude_counterexample :
    chargeZeroAtSeed.magnitude = num 0 ∧
    calculate_field_line [chargeOrigin, chargeZeroAtSeed] 2 (num 5)
        Sign.Positive ⟨num 1, num 0⟩ (num 500) (num 500) ≠
      calculate_field_line [chargeOrigin] 2 (num 5) Sign.Positive
        ⟨num 1, num 0⟩ (num 500) (num 500) := by
  refine ⟨rfl, ?_⟩
  rw [trace_AB_eval, trace_one_charge_eval]
  simp

/-- Witness for the amended claim C8 at a concrete input. -/
theorem c8_zero_magnitude_neutral_witness :
    calculate_field_line [chargeOrigin, chargeZeroFar] 2 (num 5) Sign.Positive
        ⟨num 1000, num 0⟩ (num 500) (num 500) =
      calculate_field_line [chargeOrigin] 2 (num 5) Sign.Positive
        ⟨num 1000, num 0⟩ (num 500) (num 500) :=
  c8_zero_magnitude_neutral chargeOrigin chargeZeroFar 2 (num 5) Sign.Positive
    ⟨num 1000, num 0⟩ (num 500) (num 500) 50 50 rfl rfl
    (by
      rw [trace_far_seed_eval]
      intro p hp
      rw [List.mem_singleton] at hp
      subst hp
      exact ⟨1000, 0, rfl, Or.inl (by norm_num)⟩)

/-- Claim C9 (confirmed): the tracer is a pure function of its arguments —
two invocations of `calculate_field_line` on the same input tuple produce
identical Lines; the shallow embedding has no hidden mutable state, matching
the source, which reads nothing but its arguments. -/
theorem c9_trace_deterministic (charges : List Charge) (steps : ℕ) (delta : F)
    (source_sign : Sign) (start : Point) (x_bound y_bound : F) :
    calculate_field_line charges steps delta source_sign start x_bound y_bound =
      calculate_field_line charges steps delta source_sign start x_bound y_bound :=
  rfl

/-- Claim C10, amended: every point of a returned Line except possibly the
last passes the code's bounds check (it is not out of bounds, the bounds
check being applied to a point only at the start of the iteration after it
was appended).  The claim's stronger phrasing — that every non-final point
lies inside the region `[-100, xb+100] × [-100, yb+100]` — fails for NaN
coordinates, which never compare out of bounds: see the counterexample
theorem. -/
theorem c10_nonfinal_points_pass_bounds_check (charges : List Charge)
    (steps : ℕ) (delta : F) (source_sign : Sign) (start : Point)
    (x_bound y_bound : F) :
    ∀ p ∈ (calculate_field_line charges steps delta source_sign start
        x_bound y_bound).dropLast,
      ¬ outOfBounds p x_bound y_bound := by
  rw [calculate_field_line_eq_traceGo]
  apply traceGo_dropLast
  intro p hp
  simp at hp

/-- Witness for the amended claim C10 at a concrete input: in the 2-point
trace over no charges, the single non-final point `(0, 0)` is in bounds. -/
theorem c10_nonfinal_points_witness :
    ¬ outOfBounds ⟨num 0, num 0⟩ (num 100) (num 100) :=
  c10_nonfinal_points_pass_bounds_check [] 2 (num 5) Sign.Positive
    ⟨num 0, num 0⟩ (num 100) (num 100) ⟨num 0, num 0⟩
    (by rw [trace_empty_two_eval]; simp)

/-- Counterexample to claim C10 as stated: with no charges the net field is
the zero vector at every step, so a 3-step trace from the origin is
`[(0,0), (NaN,NaN), (NaN,NaN)]` — its middle point (not the last one) does
not lie within the tolerance-extended region. -/
theorem c10_interior_nan_outside_region :
    (calculate_field_line [] 3 (num 5) Sign.Positive ⟨num 0, num 0⟩
        (num 100) (num 100)).length = 3 ∧
    ¬ withinToleranceRegion
      ((calculate_field_line [] 3 (num 5) Sign.Positive ⟨num 0, num 0⟩
          (num 100) (num 100)).getD 1 ⟨num 0, num 0⟩) 100 100 := by
  rw [trace_empty_three_eval]
  constructor
  · rfl
  · simp [withinToleranceRegion]

end ElectricFields
